import Mathlib

/-!
Shallow embedding of the ofxMaps tile-layer core: the `TileLayer`
implementation given in the sources (viewport resolution, ancestor fallback,
request issuing, dirty-flag memoisation, draw-order) together with the
`TileCoordinate` value type, the tile loader and the request sorter, which are
declared but whose definitions are not among the given sources and are
therefore modelled from the specification.

Numeric conventions: the C++ stores rows, columns and zooms as `double`; rows
and columns are embedded as `ℚ`.  Zoom levels are embedded as `ℤ`: every zoom
the embedded algorithm manipulates (the rounded-and-clamped `baseZoom`, the
ancestor levels of the fallback walk) is integral, and `2 ^ (z2 - z1)` is
rational exactly when the difference of zooms is integral.
-/

set_option maxHeartbeats 1000000

/-- A tile address (TileCoordinate): fractional `column` (the C++ `x`) and
`row` (the C++ `y`) in the grid at `zoom`. -/
structure TileCoordinate where
  column : ℚ
  row : ℚ
  zoom : ℤ
deriving DecidableEq

/-- The `zoomTo` operation: multiply row and column by `2 ^ (z - zoom)` and
set the zoom to `z`. -/
def TileCoordinate.zoomTo (c : TileCoordinate) (z : ℤ) : TileCoordinate :=
  { column := c.column * (2 : ℚ) ^ (z - c.zoom)
    row := c.row * (2 : ℚ) ^ (z - c.zoom)
    zoom := z }

/-- Truncation of a rational toward zero: the rounding C++ applies when a
`double` is converted to an `int`. -/
def ratTrunc (q : ℚ) : ℤ :=
  if 0 ≤ q then ⌊q⌋ else -⌊-q⌋

/-- Modelled from the spec (TileCoordinate.cpp is not among the given
sources): `getFloored` truncates row and column toward zero and leaves the
zoom unchanged. -/
def TileCoordinate.getFloored (c : TileCoordinate) : TileCoordinate :=
  { column := (ratTrunc c.column : ℚ)
    row := (ratTrunc c.row : ℚ)
    zoom := c.zoom }

/-- Modelled from the spec: `getClamped` clamps row and column into
`[0, 2 ^ zoom)`.  The algorithm only applies it to integral addresses (always
after `getFloored`), where clamping into that half-open interval is clamping
to the greatest integral address `2 ^ zoom - 1`. -/
def TileCoordinate.getClamped (c : TileCoordinate) : TileCoordinate :=
  { column := max 0 (min c.column ((2 : ℚ) ^ c.zoom - 1))
    row := max 0 (min c.row ((2 : ℚ) ^ c.zoom - 1))
    zoom := c.zoom }

/-- Modelled from the spec: the total order on tile coordinates used for set
and cache keys, lexicographic over (zoom, row, column). -/
def tileLe (a b : TileCoordinate) : Prop :=
  a.zoom < b.zoom ∨
    (a.zoom = b.zoom ∧ (a.row < b.row ∨ (a.row = b.row ∧ a.column ≤ b.column)))

instance : DecidableRel tileLe := fun a b => by
  unfold tileLe
  exact inferInstance

instance : IsTotal TileCoordinate tileLe := ⟨by
  intro a b
  unfold tileLe
  rcases lt_trichotomy a.zoom b.zoom with h | h | h
  · exact Or.inl (Or.inl h)
  · rcases lt_trichotomy a.row b.row with h2 | h2 | h2
    · exact Or.inl (Or.inr ⟨h, Or.inl h2⟩)
    · rcases le_total a.column b.column with h3 | h3
      · exact Or.inl (Or.inr ⟨h, Or.inr ⟨h2, h3⟩⟩)
      · exact Or.inr (Or.inr ⟨h.symm, Or.inr ⟨h2.symm, h3⟩⟩)
    · exact Or.inr (Or.inr ⟨h.symm, Or.inl h2⟩)
  · exact Or.inr (Or.inl h)⟩

instance : IsAntisymm TileCoordinate tileLe := ⟨by
  intro a b hab hba
  unfold tileLe at *
  obtain ⟨ca, ra, za⟩ := a
  obtain ⟨cb, rb, zb⟩ := b
  simp only [TileCoordinate.mk.injEq]
  dsimp only at hab hba
  rcases hab with h | ⟨hz, hr⟩
  · rcases hba with h2 | ⟨hz2, _⟩
    · exact absurd (h.trans h2) (lt_irrefl _)
    · exact absurd h (by omega)
  · rcases hba with h2 | ⟨hz2, hr2⟩
    · exact absurd h2 (by omega)
    · refine ⟨?_, ?_, hz⟩
      · rcases hr with h3 | ⟨he, hc⟩
        · rcases hr2 with h4 | ⟨he2, _⟩
          · exact absurd (h3.trans h4) (lt_irrefl _)
          · exact absurd h3 (by rw [he2]; exact lt_irrefl _)
        · rcases hr2 with h4 | ⟨he2, hc2⟩
          · exact absurd h4 (by rw [he]; exact lt_irrefl _)
          · exact le_antisymm hc hc2
      · rcases hr with h3 | ⟨he, hc⟩
        · rcases hr2 with h4 | ⟨he2, _⟩
          · exact absurd (h3.trans h4) (lt_irrefl _)
          · exact absurd h3 (by rw [he2]; exact lt_irrefl _)
        · exact he⟩

instance : IsTrans TileCoordinate tileLe := ⟨by
  intro a b c hab hbc
  unfold tileLe at *
  rcases hab with h | ⟨hz, hr⟩
  · rcases hbc with h2 | ⟨hz2, _⟩
    · exact Or.inl (h.trans h2)
    · exact Or.inl (hz2 ▸ h)
  · rcases hbc with h2 | ⟨hz2, hr2⟩
    · exact Or.inl (hz ▸ h2)
    · refine Or.inr ⟨hz.trans hz2, ?_⟩
      rcases hr with h3 | ⟨he, hc⟩
      · rcases hr2 with h4 | ⟨he2, _⟩
        · exact Or.inl (h3.trans h4)
        · exact Or.inl (he2 ▸ h3)
      · rcases hr2 with h4 | ⟨he2, hc2⟩
        · exact Or.inl (he ▸ h4)
        · exact Or.inr ⟨he.trans he2, hc.trans hc2⟩⟩

/-- Modelled from the spec (the loader class is not among the given sources):
the loader state the layer observes.  `cached` holds the decoded tiles,
`inFlight` the fetches already transferring (which `cancelQueued` leaves
alone), `queued` the waiting fetches (which `cancelQueued` drops). -/
structure TileLoader where
  cached : Finset TileCoordinate
  inFlight : Finset TileCoordinate
  queued : Finset TileCoordinate

/-- Modelled from the spec: `start` begins a fetch unless the coordinate is
already cached (a silent no-op) and fails - reported, not fatal - when a fetch
for the coordinate is already pending. -/
def TileLoader.start (ld : TileLoader) (c : TileCoordinate) :
    Except Unit TileLoader :=
  if c ∈ ld.inFlight ∨ c ∈ ld.queued then Except.error ()
  else if c ∈ ld.cached then Except.ok ld
  else Except.ok { ld with queued := insert c ld.queued }

/-- Modelled from the spec: `cancelQueued` drops the fetches that have not yet
started transferring and leaves in-progress transfers alone. -/
def TileLoader.cancelQueued (ld : TileLoader) : TileLoader :=
  { ld with queued := ∅ }

/-- The provider configuration (BaseTileProvider.h): zoom range, tile pixel
size, and the geographic conversion (the projection composition is kept
abstract, geographic coordinates being opaque pairs). -/
structure BaseURITileProvider where
  minZoom : ℤ
  maxZoom : ℤ
  tileWidth : ℚ
  tileHeight : ℚ
  geoToTile : ℚ × ℚ → TileCoordinate

/-- The tile layer state (TileLayer.cpp): viewport size, center, padding, the
dirty flag, the memoised visible set and the optional provider.  The loader is
a separate collaborator object. -/
structure TileLayer where
  width : ℚ
  height : ℚ
  center : TileCoordinate
  padColumn : ℤ
  padRow : ℤ
  coordsDirty : Bool
  visibleCoords : Finset TileCoordinate
  provider : Option BaseURITileProvider

/-- The openFrameworks CLAMP macro over the rationals:
CLAMP(val, lo, hi) = MAX(MIN(val, hi), lo). -/
def cclamp (v lo hi : ℚ) : ℚ :=
  max lo (min v hi)

/-- The openFrameworks CLAMP macro over the integers. -/
def czclamp (v lo hi : ℤ) : ℤ :=
  max lo (min v hi)

/-- TileLayer::setWidth: store the width and set the dirty flag. -/
def TileLayer.setWidth (st : TileLayer) (w : ℚ) : TileLayer :=
  { st with width := w, coordsDirty := true }

/-- TileLayer::setHeight: store the height and set the dirty flag. -/
def TileLayer.setHeight (st : TileLayer) (h : ℚ) : TileLayer :=
  { st with height := h, coordsDirty := true }

/-- TileLayer::setCenter(TileCoordinate): store the center and set the dirty
flag. -/
def TileLayer.setCenter (st : TileLayer) (c : TileCoordinate) : TileLayer :=
  { st with center := c, coordsDirty := true }

/-- TileLayer::setCenter(Geo::Coordinate, zoom): convert through the provider
and delegate to the coordinate overload; with no provider, report and do
nothing. -/
def TileLayer.setCenterGeo (st : TileLayer) (g : ℚ × ℚ) (z : ℤ) : TileLayer :=
  match st.provider with
  | some prov => st.setCenter ((prov.geoToTile g).zoomTo z)
  | none => st

/-- TileLayer::onTileCached: a tile arrived; set the dirty flag. -/
def TileLayer.onTileCached (st : TileLayer) (_ : TileCoordinate) : TileLayer :=
  { st with coordsDirty := true }

/-- TileLayer::onTileUncached: a tile left the cache; set the dirty flag. -/
def TileLayer.onTileUncached (st : TileLayer) (_ : TileCoordinate) : TileLayer :=
  { st with coordsDirty := true }

/-- TileLayer::layerPointToTileCoordinate: start from the center and offset
column and row by the layer-point offset from the viewport center measured in
tiles; with no provider, report and return the center unchanged. -/
def TileLayer.layerPointToTileCoordinate (st : TileLayer) (p : ℚ × ℚ) :
    TileCoordinate :=
  match st.provider with
  | some prov =>
    { st.center with
      column := st.center.column + (p.1 - st.width / 2) / prov.tileWidth
      row := st.center.row + (p.2 - st.height / 2) / prov.tileHeight }
  | none => st.center

/-- The grid zoom of TileLayer::getVisibleCoordinates: the center zoom
(integral in this embedding, so already rounded) clamped to the provider's
zoom range. -/
def TileLayer.baseZoom (st : TileLayer) (prov : BaseURITileProvider) : ℤ :=
  czclamp st.center.zoom prov.minZoom prov.maxZoom

/-- The iteration rectangle of TileLayer::getVisibleCoordinates. -/
structure GridBounds where
  minCol : ℤ
  maxCol : ℤ
  minRow : ℤ
  maxRow : ℤ
deriving DecidableEq

/-- The four viewport corners of TileLayer::getVisibleCoordinates mapped
through `layerPointToTileCoordinate` and `zoomTo baseZoom`, in source order:
top left, top right, bottom left, bottom right. -/
def TileLayer.cornerCoordinates (st : TileLayer) (prov : BaseURITileProvider) :
    TileCoordinate × TileCoordinate × TileCoordinate × TileCoordinate :=
  ((st.layerPointToTileCoordinate (0, 0)).zoomTo (st.baseZoom prov),
    (st.layerPointToTileCoordinate (st.width, 0)).zoomTo (st.baseZoom prov),
    (st.layerPointToTileCoordinate (0, st.height)).zoomTo (st.baseZoom prov),
    (st.layerPointToTileCoordinate (st.width, st.height)).zoomTo
      (st.baseZoom prov))

/-- The iteration bounds of TileLayer::getVisibleCoordinates before clamping:
floor of the minimum and ceil of the maximum column and row over the four
corners, padded outward by the configured padding. -/
def TileLayer.rawGridBounds (st : TileLayer) (prov : BaseURITileProvider) :
    GridBounds :=
  { minCol :=
      ⌊min (min (st.cornerCoordinates prov).1.column
            (st.cornerCoordinates prov).2.1.column)
          (min (st.cornerCoordinates prov).2.2.1.column
            (st.cornerCoordinates prov).2.2.2.column)⌋ - st.padColumn
    maxCol :=
      ⌈max (max (st.cornerCoordinates prov).1.column
            (st.cornerCoordinates prov).2.1.column)
          (max (st.cornerCoordinates prov).2.2.1.column
            (st.cornerCoordinates prov).2.2.2.column)⌉ + st.padColumn
    minRow :=
      ⌊min (min (st.cornerCoordinates prov).1.row
            (st.cornerCoordinates prov).2.1.row)
          (min (st.cornerCoordinates prov).2.2.1.row
            (st.cornerCoordinates prov).2.2.2.row)⌋ - st.padRow
    maxRow :=
      ⌈max (max (st.cornerCoordinates prov).1.row
            (st.cornerCoordinates prov).2.1.row)
          (max (st.cornerCoordinates prov).2.2.1.row
            (st.cornerCoordinates prov).2.2.2.row)⌉ + st.padRow }

/-- The iteration bounds of TileLayer::getVisibleCoordinates: the raw bounds
put through the C++ CLAMP against `[0, gridSize]` with
`gridSize = 2 ^ baseZoom` (a `double` clamp whose result is truncated back to
`int`). -/
def TileLayer.gridBounds (st : TileLayer) (prov : BaseURITileProvider) :
    GridBounds :=
  { minCol :=
      ratTrunc (cclamp ((st.rawGridBounds prov).minCol : ℚ) 0
        ((2 : ℚ) ^ st.baseZoom prov))
    maxCol :=
      ratTrunc (cclamp ((st.rawGridBounds prov).maxCol : ℚ) 0
        ((2 : ℚ) ^ st.baseZoom prov))
    minRow :=
      ratTrunc (cclamp ((st.rawGridBounds prov).minRow : ℚ) 0
        ((2 : ℚ) ^ st.baseZoom prov))
    maxRow :=
      ratTrunc (cclamp ((st.rawGridBounds prov).maxRow : ℚ) 0
        ((2 : ℚ) ^ st.baseZoom prov)) }

/-- The integral half-open interval `[a, b)` as a list, the iteration space of
the C++ for loops. -/
def intRange (a b : ℤ) : List ℤ :=
  (List.range (b - a).toNat).map (fun (k : ℕ) => a + (k : ℤ))

/-- One step of the ancestor walk of TileLayer::getVisibleCoordinates, with
explicit fuel: for the current level `i`, floor and clamp `coord.zoomTo i`;
if the cache holds it, put it in the draw set and stop, otherwise put it in
the request set and continue one level coarser. -/
def walkAux (cached : Finset TileCoordinate) (coord : TileCoordinate) :
    ℕ → ℤ → Finset TileCoordinate × Finset TileCoordinate
  | 0, _ => (∅, ∅)
  | Nat.succ n, i =>
    if ((coord.zoomTo i).getFloored).getClamped ∈ cached then
      ({((coord.zoomTo i).getFloored).getClamped}, ∅)
    else
      ((walkAux cached coord n (i - 1)).1,
        insert ((coord.zoomTo i).getFloored).getClamped
          (walkAux cached coord n (i - 1)).2)

/-- The ancestor walk of TileLayer::getVisibleCoordinates: levels
`coord.zoom` down to `prov.minZoom`, returning the draw-set and request-set
contributions. -/
def ancestorWalk (prov : BaseURITileProvider) (cached : Finset TileCoordinate)
    (coord : TileCoordinate) : Finset TileCoordinate × Finset TileCoordinate :=
  walkAux cached coord (coord.zoom - prov.minZoom + 1).toNat coord.zoom

/-- The per-cell body of the grid loop of TileLayer::getVisibleCoordinates:
a cached cell goes to the draw set; a missing cell goes to the request set and
its ancestor walk contributes to both sets. -/
def processTile (prov : BaseURITileProvider) (cached : Finset TileCoordinate)
    (coord : TileCoordinate)
    (acc : Finset TileCoordinate × Finset TileCoordinate) :
    Finset TileCoordinate × Finset TileCoordinate :=
  if coord ∈ cached then (insert coord acc.1, acc.2)
  else
    let w := ancestorWalk prov cached coord
    (acc.1 ∪ w.1, insert coord (acc.2 ∪ w.2))

/-- The grid loop of TileLayer::getVisibleCoordinates: columns outer, rows
inner, accumulating the draw and request sets. -/
def tileScan (prov : BaseURITileProvider) (cached : Finset TileCoordinate)
    (bz : ℤ) (cols rows : List ℤ) :
    Finset TileCoordinate × Finset TileCoordinate :=
  cols.foldl
    (fun acc (col : ℤ) =>
      rows.foldl
        (fun acc2 (row : ℤ) =>
          processTile prov cached
            { column := (col : ℚ), row := (row : ℚ), zoom := bz } acc2)
        acc)
    (∅, ∅)

/-- The draw-set and request-set pair computed by
TileLayer::getVisibleCoordinates before requests are issued. -/
def TileLayer.visiblePair (st : TileLayer) (prov : BaseURITileProvider)
    (cached : Finset TileCoordinate) :
    Finset TileCoordinate × Finset TileCoordinate :=
  let b := st.gridBounds prov
  tileScan prov cached (st.baseZoom prov) (intRange b.minCol b.maxCol)
    (intRange b.minRow b.maxRow)

/-- Modelled from the spec (the QueueSorter is not among the given sources):
requests are ordered by zoom distance from the center first, then by squared
row/column distance from the center rescaled to the coordinate's zoom. -/
def queueLe (center : TileCoordinate) (a b : TileCoordinate) : Prop :=
  (a.zoom - center.zoom).natAbs < (b.zoom - center.zoom).natAbs ∨
    ((a.zoom - center.zoom).natAbs = (b.zoom - center.zoom).natAbs ∧
      (a.row - (center.zoomTo a.zoom).row) ^ 2 +
          (a.column - (center.zoomTo a.zoom).column) ^ 2 ≤
        (b.row - (center.zoomTo b.zoom).row) ^ 2 +
          (b.column - (center.zoomTo b.zoom).column) ^ 2)

instance : DecidableRel (queueLe center) := fun a b => by
  unfold queueLe
  exact inferInstance

/-- The sorted request list of TileLayer::getVisibleCoordinates. -/
def sortRequests (center : TileCoordinate) (reqs : Finset TileCoordinate) :
    List TileCoordinate :=
  List.insertionSort (queueLe center) (reqs.sort tileLe)

/-- The request-issuing loop of TileLayer::getVisibleCoordinates: start each
fetch, swallowing the already-pending failure (the catch of
Poco::ExistsException). -/
def issueAll (cs : List TileCoordinate) (ld : TileLoader) : TileLoader :=
  cs.foldl
    (fun l c =>
      match l.start c with
      | Except.ok l2 => l2
      | Except.error _ => l)
    ld

/-- TileLayer::getVisibleCoordinates: with no provider, report and return the
empty set leaving the loader untouched; otherwise run the grid scan, cancel
the queued fetches, issue the sorted requests and return the draw set. -/
def TileLayer.getVisibleCoordinates (st : TileLayer) (ld : TileLoader) :
    Finset TileCoordinate × TileLoader :=
  match st.provider with
  | none => (∅, ld)
  | some prov =>
    let pr := st.visiblePair prov ld.cached
    (pr.1, issueAll (sortRequests st.center pr.2) ld.cancelQueued)

/-- The request set of TileLayer::getVisibleCoordinates (empty when no
provider is set). -/
def TileLayer.requestedCoordinates (st : TileLayer) (ld : TileLoader) :
    Finset TileCoordinate :=
  match st.provider with
  | none => ∅
  | some prov => (st.visiblePair prov ld.cached).2

/-- The state update of TileLayer::draw: when the dirty flag is set,
recompute the visible set (issuing requests on the loader), memoise it and
clear the flag; otherwise reuse the memoised set. -/
def drawStep (st : TileLayer) (ld : TileLoader) : TileLayer × TileLoader :=
  if st.coordsDirty then
    let r := st.getVisibleCoordinates ld
    ({ st with visibleCoords := r.1, coordsDirty := false }, r.2)
  else (st, ld)

/-- The compositing order of TileLayer::draw: the visible set is iterated
with a reverse iterator over its key order, and only coordinates whose tile
the loader holds are drawn. -/
def compositeOrder (vis : Finset TileCoordinate) (ld : TileLoader) :
    List TileCoordinate :=
  ((vis.sort tileLe).reverse).filter (fun c => decide (c ∈ ld.cached))

/-- The list of coordinates TileLayer::draw composites, in drawing order,
after the dirty-flag update. -/
def TileLayer.drawList (st : TileLayer) (ld : TileLoader) :
    List TileCoordinate :=
  compositeOrder (drawStep st ld).1.visibleCoords (drawStep st ld).2

/-- A coordinate with integral row and column lying inside the valid grid of
its zoom level. -/
def InGrid (c : TileCoordinate) : Prop :=
  c.row.den = 1 ∧ c.column.den = 1 ∧
    0 ≤ c.row ∧ c.row < (2 : ℚ) ^ c.zoom ∧
    0 ≤ c.column ∧ c.column < (2 : ℚ) ^ c.zoom

instance : DecidablePred InGrid := fun c => by
  unfold InGrid
  exact inferInstance

/-- A tiny concrete provider used by witnesses. -/
def witProvider : BaseURITileProvider :=
  { minZoom := 0
    maxZoom := 2
    tileWidth := 1
    tileHeight := 1
    geoToTile := fun _ => { column := 0, row := 0, zoom := 0 } }

/-- A concrete layer state with no provider, used by witnesses. -/
def noProviderLayer : TileLayer :=
  { width := 2
    height := 2
    center := { column := 0, row := 0, zoom := 0 }
    padColumn := 0
    padRow := 0
    coordsDirty := false
    visibleCoords := ∅
    provider := none }

/-- An empty concrete loader used by witnesses. -/
def emptyLoader : TileLoader :=
  { cached := ∅, inFlight := ∅, queued := ∅ }

/-- C9: rescaling is path-independent: `c.zoomTo z1 |>.zoomTo z2` equals
`c.zoomTo z2` for every tile coordinate and all zoom levels. -/
theorem zoomTo_zoomTo (c : TileCoordinate) (z1 z2 : ℤ) :
    (c.zoomTo z1).zoomTo z2 = c.zoomTo z2 := by
  unfold TileCoordinate.zoomTo
  have h : z1 - c.zoom + (z2 - z1) = z2 - c.zoom := by omega
  simp only [TileCoordinate.mk.injEq, and_true]
  constructor
  · rw [mul_assoc, ← zpow_add₀ (by norm_num : (2 : ℚ) ≠ 0), h]
  · rw [mul_assoc, ← zpow_add₀ (by norm_num : (2 : ℚ) ≠ 0), h]

/-- C5: with no provider set, every provider-needing operation is a total
no-op returning an empty or neutral result: `getVisibleCoordinates` returns
the empty set and leaves the loader untouched, no coordinate is requested,
`setCenter(Geo, zoom)` leaves the whole state (in particular the center)
unchanged, and `layerPointToTileCoordinate` returns the current center. -/
theorem noProvider_ops_neutral (st : TileLayer) (ld : TileLoader)
    (g : ℚ × ℚ) (z : ℤ) (p : ℚ × ℚ) (h : st.provider = none) :
    st.getVisibleCoordinates ld = (∅, ld) ∧
      st.requestedCoordinates ld = ∅ ∧
      st.setCenterGeo g z = st ∧
      (st.setCenterGeo g z).center = st.center ∧
      st.layerPointToTileCoordinate p = st.center := by
  unfold TileLayer.getVisibleCoordinates TileLayer.requestedCoordinates
    TileLayer.setCenterGeo TileLayer.layerPointToTileCoordinate
  rw [h]
  exact ⟨rfl, rfl, rfl, rfl, rfl⟩

/-- Witness for C5 at a concrete state. -/
theorem noProvider_ops_neutral_witness :
    noProviderLayer.provider = none ∧
      (noProviderLayer.getVisibleCoordinates emptyLoader = (∅, emptyLoader) ∧
        noProviderLayer.requestedCoordinates emptyLoader = ∅ ∧
        noProviderLayer.setCenterGeo (3, 4) 1 = noProviderLayer ∧
        (noProviderLayer.setCenterGeo (3, 4) 1).center = noProviderLayer.center ∧
        noProviderLayer.layerPointToTileCoordinate (1, 1) =
          noProviderLayer.center) :=
  ⟨rfl, noProvider_ops_neutral noProviderLayer emptyLoader (3, 4) 1 (1, 1) rfl⟩

/-- C10: the draw update leaves center, width, height, padding and provider
unchanged; the only layer state it may modify is the memoised visible set
(which becomes either the old memo or the freshly resolved set) and the dirty
flag, which it leaves cleared. -/
theorem drawStep_frame (st : TileLayer) (ld : TileLoader) :
    (drawStep st ld).1.center = st.center ∧
      (drawStep st ld).1.width = st.width ∧
      (drawStep st ld).1.height = st.height ∧
      (drawStep st ld).1.padColumn = st.padColumn ∧
      (drawStep st ld).1.padRow = st.padRow ∧
      (drawStep st ld).1.provider = st.provider ∧
      (drawStep st ld).1.coordsDirty = false ∧
      ((drawStep st ld).1.visibleCoords = st.visibleCoords ∨
        (drawStep st ld).1.visibleCoords = (st.getVisibleCoordinates ld).1) := by
  unfold drawStep
  rcases Bool.eq_false_or_eq_true st.coordsDirty with h | h
  · rw [h]
    simp [h]
  · rw [h]
    simp [h]

/-- C8: the loader reports a coordinate already in flight by failing `start`;
the issuing loop swallows that failure, skips the duplicate and goes on with
the remaining requests, and the draw set returned by the resolution does not
depend on the loader's pending fetches at all. -/
theorem duplicate_request_skipped (ld : TileLoader) (c : TileCoordinate)
    (cs : List TileCoordinate) (st : TileLayer)
    (qf pf : Finset TileCoordinate) (h : c ∈ ld.inFlight) :
    ld.start c = Except.error () ∧
      issueAll (c :: cs) ld = issueAll cs ld ∧
      (st.getVisibleCoordinates { ld with inFlight := pf, queued := qf }).1 =
        (st.getVisibleCoordinates ld).1 := by
  refine ⟨?_, ?_, ?_⟩
  · unfold TileLoader.start
    rw [if_pos (Or.inl h)]
  · unfold issueAll
    simp only [List.foldl_cons]
    have hs : ld.start c = Except.error () := by
      unfold TileLoader.start
      rw [if_pos (Or.inl h)]
    rw [hs]
  · unfold TileLayer.getVisibleCoordinates
    cases hp : st.provider with
    | none => rfl
    | some prov => rfl

/-- Witness for C8 at a concrete loader whose only pending fetch is the
duplicate coordinate. -/
theorem duplicate_request_skipped_witness :
    ({ column := 0, row := 0, zoom := 0 } : TileCoordinate) ∈
        (TileLoader.mk ∅ {{ column := 0, row := 0, zoom := 0 }} ∅).inFlight ∧
      ((TileLoader.mk ∅ {{ column := 0, row := 0, zoom := 0 }} ∅).start
          { column := 0, row := 0, zoom := 0 } = Except.error () ∧
        issueAll [{ column := 0, row := 0, zoom := 0 }]
            (TileLoader.mk ∅ {{ column := 0, row := 0, zoom := 0 }} ∅) =
          issueAll [] (TileLoader.mk ∅ {{ column := 0, row := 0, zoom := 0 }} ∅) ∧
        (noProviderLayer.getVisibleCoordinates
            { TileLoader.mk ∅ {{ column := 0, row := 0, zoom := 0 }} ∅ with
              inFlight := ∅, queued := ∅ }).1 =
          (noProviderLayer.getVisibleCoordinates
            (TileLoader.mk ∅ {{ column := 0, row := 0, zoom := 0 }} ∅)).1) :=
  ⟨Finset.mem_singleton_self _,
    duplicate_request_skipped
      (TileLoader.mk ∅ {{ column := 0, row := 0, zoom := 0 }} ∅)
      { column := 0, row := 0, zoom := 0 } [] noProviderLayer ∅ ∅
      (Finset.mem_singleton_self _)⟩

/-- The zoom-0 world tile, used in concrete counterexamples. -/
def tileA : TileCoordinate :=
  { column := 0, row := 0, zoom := 0 }

/-- The zoom-1 corner tile, used in concrete counterexamples. -/
def tileB : TileCoordinate :=
  { column := 0, row := 0, zoom := 1 }

/-- A concrete layer state that carries a provider, used by witnesses. -/
def providerLayer : TileLayer :=
  { width := 2
    height := 2
    center := { column := 1, row := 1, zoom := 1 }
    padColumn := 0
    padRow := 0
    coordsDirty := false
    visibleCoords := ∅
    provider := some witProvider }

/-- Counterexample to C6 as stated: with no provider set, the geographic
`setCenter` overload is a reported no-op that does not set the dirty flag. -/
theorem setCenterGeo_no_dirty_counterexample :
    noProviderLayer.coordsDirty = false ∧
      (noProviderLayer.setCenterGeo (0, 0) 1).coordsDirty = false :=
  ⟨rfl, rfl⟩

/-- C6 (amended): setWidth, setHeight, setCenter(TileCoordinate),
onTileCached and onTileUncached always set the dirty flag;
setCenter(Geo, zoom) sets it whenever a provider is set; draw recomputes the
visible set precisely when the flag is set, memoises it and clears the flag,
and a repeated draw reuses the memoised set unchanged. -/
theorem dirty_flag_invariant (st : TileLayer) (ld : TileLoader) (w h2 : ℚ)
    (c : TileCoordinate) (g : ℚ × ℚ) (z : ℤ) (prov : BaseURITileProvider) :
    (st.setWidth w).coordsDirty = true ∧
      (st.setHeight h2).coordsDirty = true ∧
      (st.setCenter c).coordsDirty = true ∧
      (st.provider = some prov → (st.setCenterGeo g z).coordsDirty = true) ∧
      (st.onTileCached c).coordsDirty = true ∧
      (st.onTileUncached c).coordsDirty = true ∧
      (st.coordsDirty = true →
        drawStep st ld =
          ({ st with
              visibleCoords := (st.getVisibleCoordinates ld).1
              coordsDirty := false },
            (st.getVisibleCoordinates ld).2)) ∧
      (st.coordsDirty = false → drawStep st ld = (st, ld)) ∧
      (drawStep st ld).1.coordsDirty = false ∧
      drawStep (drawStep st ld).1 (drawStep st ld).2 = drawStep st ld := by
  refine ⟨rfl, rfl, rfl, ?_, rfl, rfl, ?_, ?_, ?_, ?_⟩
  · intro hp
    unfold TileLayer.setCenterGeo
    rw [hp]
    rfl
  · intro hd
    simp [drawStep, hd]
  · intro hd
    simp [drawStep, hd]
  · cases hd : st.coordsDirty with
    | false => simp [drawStep, hd]
    | true => simp [drawStep, hd]
  · cases hd : st.coordsDirty with
    | false => simp [drawStep, hd]
    | true => simp [drawStep, hd]

/-- Witness for C6 (amended) at a concrete provider-carrying state. -/
theorem dirty_flag_invariant_witness :
    (providerLayer.setWidth 3).coordsDirty = true ∧
      (providerLayer.setHeight 4).coordsDirty = true ∧
      (providerLayer.setCenter tileA).coordsDirty = true ∧
      (providerLayer.provider = some witProvider →
        (providerLayer.setCenterGeo (0, 0) 1).coordsDirty = true) ∧
      (providerLayer.onTileCached tileA).coordsDirty = true ∧
      (providerLayer.onTileUncached tileA).coordsDirty = true ∧
      (providerLayer.coordsDirty = true →
        drawStep providerLayer emptyLoader =
          ({ providerLayer with
              visibleCoords :=
                (providerLayer.getVisibleCoordinates emptyLoader).1
              coordsDirty := false },
            (providerLayer.getVisibleCoordinates emptyLoader).2)) ∧
      (providerLayer.coordsDirty = false →
        drawStep providerLayer emptyLoader = (providerLayer, emptyLoader)) ∧
      (drawStep providerLayer emptyLoader).1.coordsDirty = false ∧
      drawStep (drawStep providerLayer emptyLoader).1
          (drawStep providerLayer emptyLoader).2 =
        drawStep providerLayer emptyLoader :=
  dirty_flag_invariant providerLayer emptyLoader 3 4 tileA (0, 0) 1 witProvider

/-- A layer whose memoised visible set holds a coarse tile and a fine tile,
with a clean dirty flag. -/
def fineCoarseLayer : TileLayer :=
  { width := 2
    height := 2
    center := { column := 0, row := 0, zoom := 0 }
    padColumn := 0
    padRow := 0
    coordsDirty := false
    visibleCoords := {tileA, tileB}
    provider := none }

/-- A loader caching both tiles of `fineCoarseLayer`. -/
def fineCoarseLoader : TileLoader :=
  { cached := {tileA, tileB}, inFlight := ∅, queued := ∅ }

/-- Counterexample to C2 as stated: with both the zoom-0 tile and the zoom-1
tile visible and cached, the draw loop composites the zoom-1 tile first, so
the coarser tile is not drawn before the finer one. -/
theorem draw_order_counterexample :
    fineCoarseLayer.drawList fineCoarseLoader = [tileB, tileA] ∧
      tileA.zoom < tileB.zoom ∧
      ¬ ((fineCoarseLayer.drawList fineCoarseLoader).indexOf tileA <
          (fineCoarseLayer.drawList fineCoarseLoader).indexOf tileB) := by
  have hne : tileA ∉ ({tileB} : Finset TileCoordinate) := by decide
  have hsort :
      Finset.sort tileLe ({tileA, tileB} : Finset TileCoordinate) =
        [tileA, tileB] := by
    rw [Finset.sort_insert tileLe ?_ hne, Finset.sort_singleton]
    intro b hb
    rw [Finset.mem_singleton] at hb
    rw [hb]
    exact Or.inl (by decide)
  have hlist : fineCoarseLayer.drawList fineCoarseLoader = [tileB, tileA] := by
    unfold TileLayer.drawList
    have hstep : drawStep fineCoarseLayer fineCoarseLoader =
        (fineCoarseLayer, fineCoarseLoader) := rfl
    rw [hstep]
    show compositeOrder {tileA, tileB} fineCoarseLoader = [tileB, tileA]
    unfold compositeOrder
    rw [hsort]
    show List.filter _ [tileB, tileA] = [tileB, tileA]
    rw [List.filter_cons, List.filter_cons]
    have hb : decide (tileB ∈ fineCoarseLoader.cached) = true := by decide
    have ha : decide (tileA ∈ fineCoarseLoader.cached) = true := by decide
    rw [hb, ha]
    rfl
  refine ⟨hlist, by decide, ?_⟩
  rw [hlist]
  decide

/-- C2 (amended): the rendering loop iterates the visible set in reverse key
order, so the composited tiles are ordered from finest zoom to coarsest: for
any two drawn coordinates with a.zoom < b.zoom, b is drawn before a. -/
theorem drawList_finest_first (st : TileLayer) (ld : TileLoader) :
    List.Pairwise (fun a b => b.zoom ≤ a.zoom) (st.drawList ld) := by
  unfold TileLayer.drawList compositeOrder
  apply List.Pairwise.filter
  rw [List.pairwise_reverse]
  refine List.Pairwise.imp ?_
    (Finset.sort_sorted tileLe (drawStep st ld).1.visibleCoords)
  intro a b hab
  rcases hab with h | ⟨h, _⟩
  · exact le_of_lt h
  · exact le_of_eq h


/-- The per-cell contribution of the grid loop, as a pair (draw-set part,
request-set part); `processTile` adds exactly this to its accumulator. -/
def cellPair (prov : BaseURITileProvider) (cached : Finset TileCoordinate)
    (coord : TileCoordinate) :
    Finset TileCoordinate × Finset TileCoordinate :=
  if coord ∈ cached then ({coord}, ∅)
  else
    ((ancestorWalk prov cached coord).1,
      insert coord (ancestorWalk prov cached coord).2)

theorem processTile_eq (prov : BaseURITileProvider)
    (cached : Finset TileCoordinate) (coord : TileCoordinate)
    (acc : Finset TileCoordinate × Finset TileCoordinate) :
    processTile prov cached coord acc =
      (acc.1 ∪ (cellPair prov cached coord).1,
        acc.2 ∪ (cellPair prov cached coord).2) := by
  unfold processTile cellPair
  split
  · refine Prod.ext_iff.mpr ⟨?_, by simp⟩
    apply Finset.ext
    intro z
    simp [or_comm]
  · refine Prod.ext_iff.mpr ⟨rfl, ?_⟩
    apply Finset.ext
    intro z
    simp only [Finset.mem_insert, Finset.mem_union]
    tauto

/-- The generic accumulate-a-union fold underlying the grid loop. -/
def pairFold {α : Type}
    (h : α → Finset TileCoordinate × Finset TileCoordinate) (l : List α)
    (acc : Finset TileCoordinate × Finset TileCoordinate) :
    Finset TileCoordinate × Finset TileCoordinate :=
  l.foldl (fun a x => (a.1 ∪ (h x).1, a.2 ∪ (h x).2)) acc

theorem mem_pairFold {α : Type}
    (h : α → Finset TileCoordinate × Finset TileCoordinate) (l : List α)
    (acc : Finset TileCoordinate × Finset TileCoordinate)
    (y : TileCoordinate) :
    (y ∈ (pairFold h l acc).1 ↔ y ∈ acc.1 ∨ ∃ x ∈ l, y ∈ (h x).1) ∧
      (y ∈ (pairFold h l acc).2 ↔ y ∈ acc.2 ∨ ∃ x ∈ l, y ∈ (h x).2) := by
  induction l generalizing acc with
  | nil => simp [pairFold]
  | cons x xs ih =>
    have e : pairFold h (x :: xs) acc =
        pairFold h xs (acc.1 ∪ (h x).1, acc.2 ∪ (h x).2) := rfl
    rw [e]
    constructor
    · rw [(ih _).1]
      simp only [Finset.mem_union, List.mem_cons]
      constructor
      · rintro ((hy | hy) | ⟨x2, hx2, hy⟩)
        · exact Or.inl hy
        · exact Or.inr ⟨x, Or.inl rfl, hy⟩
        · exact Or.inr ⟨x2, Or.inr hx2, hy⟩
      · rintro (hy | ⟨x2, (rfl | hx2), hy⟩)
        · exact Or.inl (Or.inl hy)
        · exact Or.inl (Or.inr hy)
        · exact Or.inr ⟨x2, hx2, hy⟩
    · rw [(ih _).2]
      simp only [Finset.mem_union, List.mem_cons]
      constructor
      · rintro ((hy | hy) | ⟨x2, hx2, hy⟩)
        · exact Or.inl hy
        · exact Or.inr ⟨x, Or.inl rfl, hy⟩
        · exact Or.inr ⟨x2, Or.inr hx2, hy⟩
      · rintro (hy | ⟨x2, (rfl | hx2), hy⟩)
        · exact Or.inl (Or.inl hy)
        · exact Or.inl (Or.inr hy)
        · exact Or.inr ⟨x2, hx2, hy⟩

theorem mem_pairFold_empty_fst {α : Type}
    (h : α → Finset TileCoordinate × Finset TileCoordinate) (l : List α)
    (y : TileCoordinate) :
    y ∈ (pairFold h l (∅, ∅)).1 ↔ ∃ x ∈ l, y ∈ (h x).1 := by
  rw [(mem_pairFold h l (∅, ∅) y).1]
  constructor
  · rintro (h0 | h1)
    · exact absurd h0 (Finset.not_mem_empty y)
    · exact h1
  · intro h1
    exact Or.inr h1

theorem mem_pairFold_empty_snd {α : Type}
    (h : α → Finset TileCoordinate × Finset TileCoordinate) (l : List α)
    (y : TileCoordinate) :
    y ∈ (pairFold h l (∅, ∅)).2 ↔ ∃ x ∈ l, y ∈ (h x).2 := by
  rw [(mem_pairFold h l (∅, ∅) y).2]
  constructor
  · rintro (h0 | h1)
    · exact absurd h0 (Finset.not_mem_empty y)
    · exact h1
  · intro h1
    exact Or.inr h1

theorem pairFold_init {α : Type}
    (h : α → Finset TileCoordinate × Finset TileCoordinate) (l : List α)
    (acc : Finset TileCoordinate × Finset TileCoordinate) :
    pairFold h l acc =
      (acc.1 ∪ (pairFold h l (∅, ∅)).1, acc.2 ∪ (pairFold h l (∅, ∅)).2) := by
  rw [Prod.ext_iff]
  constructor
  · apply Finset.ext
    intro y
    rw [(mem_pairFold h l acc y).1]
    simp only [Finset.mem_union, mem_pairFold_empty_fst]
  · apply Finset.ext
    intro y
    rw [(mem_pairFold h l acc y).2]
    simp only [Finset.mem_union, mem_pairFold_empty_snd]

theorem rows_foldl_eq (prov : BaseURITileProvider)
    (cached : Finset TileCoordinate) (bz : ℤ) (col : ℤ) (rows : List ℤ)
    (acc : Finset TileCoordinate × Finset TileCoordinate) :
    rows.foldl
        (fun acc2 (row : ℤ) =>
          processTile prov cached
            { column := (col : ℚ), row := (row : ℚ), zoom := bz } acc2)
        acc =
      pairFold
        (fun (row : ℤ) =>
          cellPair prov cached
            { column := (col : ℚ), row := (row : ℚ), zoom := bz })
        rows acc := by
  induction rows generalizing acc with
  | nil => rfl
  | cons r rs ih =>
    rw [List.foldl_cons]
    rw [processTile_eq]
    exact ih _

theorem cols_foldl_eq (prov : BaseURITileProvider)
    (cached : Finset TileCoordinate) (bz : ℤ) (cols rows : List ℤ)
    (acc : Finset TileCoordinate × Finset TileCoordinate) :
    cols.foldl
        (fun acc (col : ℤ) =>
          rows.foldl
            (fun acc2 (row : ℤ) =>
              processTile prov cached
                { column := (col : ℚ), row := (row : ℚ), zoom := bz } acc2)
            acc)
        acc =
      pairFold
        (fun (col : ℤ) =>
          pairFold
            (fun (row : ℤ) =>
              cellPair prov cached
                { column := (col : ℚ), row := (row : ℚ), zoom := bz })
            rows (∅, ∅))
        cols acc := by
  induction cols generalizing acc with
  | nil => rfl
  | cons c cs ih =>
    rw [List.foldl_cons]
    rw [rows_foldl_eq, pairFold_init]
    exact ih _

theorem tileScan_eq (prov : BaseURITileProvider)
    (cached : Finset TileCoordinate) (bz : ℤ) (cols rows : List ℤ) :
    tileScan prov cached bz cols rows =
      pairFold
        (fun (col : ℤ) =>
          pairFold
            (fun (row : ℤ) =>
              cellPair prov cached
                { column := (col : ℚ), row := (row : ℚ), zoom := bz })
            rows (∅, ∅))
        cols (∅, ∅) := by
  unfold tileScan
  exact cols_foldl_eq prov cached bz cols rows (∅, ∅)

theorem mem_tileScan_fst (prov : BaseURITileProvider)
    (cached : Finset TileCoordinate) (bz : ℤ) (cols rows : List ℤ)
    (y : TileCoordinate) :
    y ∈ (tileScan prov cached bz cols rows).1 ↔
      ∃ col ∈ cols, ∃ row ∈ rows,
        y ∈ (cellPair prov cached
          { column := (col : ℚ), row := (row : ℚ), zoom := bz }).1 := by
  rw [tileScan_eq, mem_pairFold_empty_fst]
  simp only [mem_pairFold_empty_fst]

theorem mem_tileScan_snd (prov : BaseURITileProvider)
    (cached : Finset TileCoordinate) (bz : ℤ) (cols rows : List ℤ)
    (y : TileCoordinate) :
    y ∈ (tileScan prov cached bz cols rows).2 ↔
      ∃ col ∈ cols, ∃ row ∈ rows,
        y ∈ (cellPair prov cached
          { column := (col : ℚ), row := (row : ℚ), zoom := bz }).2 := by
  rw [tileScan_eq, mem_pairFold_empty_snd]
  simp only [mem_pairFold_empty_snd]

theorem mem_intRange {a b x : ℤ} : x ∈ intRange a b ↔ a ≤ x ∧ x < b := by
  unfold intRange
  simp only [List.mem_map, List.mem_range]
  constructor
  · rintro ⟨k, hk, rfl⟩
    omega
  · rintro ⟨h1, h2⟩
    exact ⟨(x - a).toNat, by omega, by omega⟩

theorem ratTrunc_intCast (n : ℤ) : ratTrunc ((n : ℤ) : ℚ) = n := by
  unfold ratTrunc
  split
  · exact Int.floor_intCast n
  · rw [show -((n : ℚ)) = ((-n : ℤ) : ℚ) by push_cast; ring, Int.floor_intCast]
    omega

theorem cast_czclamp (v G : ℤ) :
    ((czclamp v 0 G : ℤ) : ℚ) = max 0 (min (v : ℚ) (G : ℚ)) := by
  unfold czclamp
  push_cast
  rfl

theorem ratTrunc_cclamp_int (v G : ℤ) :
    ratTrunc (cclamp ((v : ℤ) : ℚ) 0 ((G : ℤ) : ℚ)) = czclamp v 0 G := by
  unfold cclamp
  rw [← cast_czclamp, ratTrunc_intCast]

theorem zpow_toNat_cast (bz : ℤ) (h : 0 ≤ bz) :
    (2 : ℚ) ^ bz = (((2 : ℤ) ^ bz.toNat : ℤ) : ℚ) := by
  conv_lhs => rw [← Int.toNat_of_nonneg h]
  rw [zpow_natCast]
  push_cast
  ring

theorem czclamp_bounds (v G : ℤ) (hG : 0 ≤ G) :
    0 ≤ czclamp v 0 G ∧ czclamp v 0 G ≤ G := by
  unfold czclamp
  constructor
  · exact le_max_left 0 _
  · exact max_le hG (min_le_right v G)

/-- The grid zoom is at least the provider's minimum zoom. -/
theorem baseZoom_ge_minZoom (st : TileLayer) (prov : BaseURITileProvider) :
    prov.minZoom ≤ st.baseZoom prov :=
  le_max_left prov.minZoom _

/-- With a nonnegative base zoom, the clamped iteration bounds are the
integral clamp of the raw bounds into `[0, 2 ^ baseZoom]`. -/
theorem gridBounds_eq_czclamp (st : TileLayer) (prov : BaseURITileProvider)
    (h : 0 ≤ st.baseZoom prov) :
    st.gridBounds prov =
      { minCol :=
          czclamp (st.rawGridBounds prov).minCol 0
            ((2 : ℤ) ^ (st.baseZoom prov).toNat)
        maxCol :=
          czclamp (st.rawGridBounds prov).maxCol 0
            ((2 : ℤ) ^ (st.baseZoom prov).toNat)
        minRow :=
          czclamp (st.rawGridBounds prov).minRow 0
            ((2 : ℤ) ^ (st.baseZoom prov).toNat)
        maxRow :=
          czclamp (st.rawGridBounds prov).maxRow 0
            ((2 : ℤ) ^ (st.baseZoom prov).toNat) } := by
  unfold TileLayer.gridBounds
  rw [zpow_toNat_cast _ h]
  rw [ratTrunc_cclamp_int, ratTrunc_cclamp_int, ratTrunc_cclamp_int,
    ratTrunc_cclamp_int]

/-- With a nonnegative base zoom, every clamped bound lies in
`[0, 2 ^ baseZoom]`. -/
theorem gridBounds_range (st : TileLayer) (prov : BaseURITileProvider)
    (h : 0 ≤ st.baseZoom prov) :
    0 ≤ (st.gridBounds prov).minCol ∧
      (st.gridBounds prov).maxCol ≤ (2 : ℤ) ^ (st.baseZoom prov).toNat ∧
      0 ≤ (st.gridBounds prov).minRow ∧
      (st.gridBounds prov).maxRow ≤ (2 : ℤ) ^ (st.baseZoom prov).toNat := by
  rw [gridBounds_eq_czclamp st prov h]
  have hG : (0 : ℤ) ≤ (2 : ℤ) ^ (st.baseZoom prov).toNat := by positivity
  exact ⟨(czclamp_bounds _ _ hG).1, (czclamp_bounds _ _ hG).2,
    (czclamp_bounds _ _ hG).1, (czclamp_bounds _ _ hG).2⟩

/-- Every coordinate the ancestor walk examines is the floored and clamped
rescaling of the scanned cell to some zoom level between the level below the
fuel window and the starting level. -/
theorem mem_walkAux (cached : Finset TileCoordinate) (coord : TileCoordinate) :
    ∀ (fuel : ℕ) (i : ℤ) (y : TileCoordinate),
      (y ∈ (walkAux cached coord fuel i).1 ∨
          y ∈ (walkAux cached coord fuel i).2) →
      ∃ j : ℤ, i - fuel < j ∧ j ≤ i ∧
        y = ((coord.zoomTo j).getFloored).getClamped := by
  intro fuel
  induction fuel with
  | zero =>
    intro i y hy
    simp [walkAux] at hy
  | succ n ih =>
    intro i y hy
    unfold walkAux at hy
    by_cases hc : ((coord.zoomTo i).getFloored).getClamped ∈ cached
    · rw [if_pos hc] at hy
      rcases hy with hy | hy
      · rw [Finset.mem_singleton] at hy
        exact ⟨i, by omega, le_refl i, hy⟩
      · exact absurd hy (Finset.not_mem_empty y)
    · rw [if_neg hc] at hy
      rcases hy with hy | hy
      · obtain ⟨j, hj1, hj2, hj3⟩ := ih (i - 1) y (Or.inl hy)
        exact ⟨j, by omega, by omega, hj3⟩
      · rw [Finset.mem_insert] at hy
        rcases hy with hy | hy
        · exact ⟨i, by omega, le_refl i, hy⟩
        · obtain ⟨j, hj1, hj2, hj3⟩ := ih (i - 1) y (Or.inr hy)
          exact ⟨j, by omega, by omega, hj3⟩

/-- Flooring and clamping any coordinate of nonnegative zoom produces an
integral coordinate inside the valid grid of that zoom level. -/
theorem inGrid_clampFloor (c : TileCoordinate) (h : 0 ≤ c.zoom) :
    InGrid ((c.getFloored).getClamped) := by
  unfold TileCoordinate.getFloored TileCoordinate.getClamped InGrid
  have hpow : (2 : ℚ) ^ c.zoom = (((2 : ℤ) ^ c.zoom.toNat : ℤ) : ℚ) :=
    zpow_toNat_cast _ h
  have hBpos : (0 : ℤ) < (2 : ℤ) ^ c.zoom.toNat := by positivity
  have hB : (2 : ℚ) ^ c.zoom - 1 = (((2 : ℤ) ^ c.zoom.toNat - 1 : ℤ) : ℚ) := by
    rw [hpow]
    push_cast
    ring
  have key : ∀ t : ℤ,
      max (0 : ℚ) (min ((t : ℤ) : ℚ) ((2 : ℚ) ^ c.zoom - 1)) =
        ((czclamp t 0 ((2 : ℤ) ^ c.zoom.toNat - 1) : ℤ) : ℚ) := by
    intro t
    rw [hB, cast_czclamp]
  dsimp only
  rw [key (ratTrunc c.row), key (ratTrunc c.column)]
  have hb : (0 : ℤ) ≤ (2 : ℤ) ^ c.zoom.toNat - 1 := by omega
  have h1 := czclamp_bounds (ratTrunc c.row) ((2 : ℤ) ^ c.zoom.toNat - 1) hb
  have h2 := czclamp_bounds (ratTrunc c.column) ((2 : ℤ) ^ c.zoom.toNat - 1) hb
  refine ⟨Rat.den_intCast _, Rat.den_intCast _, ?_, ?_, ?_, ?_⟩
  · exact_mod_cast h1.1
  · rw [hpow]
    have : czclamp (ratTrunc c.row) 0 ((2 : ℤ) ^ c.zoom.toNat - 1) <
        (2 : ℤ) ^ c.zoom.toNat := by omega
    exact_mod_cast this
  · exact_mod_cast h2.1
  · rw [hpow]
    have : czclamp (ratTrunc c.column) 0 ((2 : ℤ) ^ c.zoom.toNat - 1) <
        (2 : ℤ) ^ c.zoom.toNat := by omega
    exact_mod_cast this

theorem ratTrunc_of_nonneg (q : ℚ) (h : 0 ≤ q) : ratTrunc q = ⌊q⌋ :=
  if_pos h

theorem walkAux_succ (cached : Finset TileCoordinate) (coord : TileCoordinate)
    (n : ℕ) (i : ℤ) :
    walkAux cached coord (n + 1) i =
      if ((coord.zoomTo i).getFloored).getClamped ∈ cached then
        ({((coord.zoomTo i).getFloored).getClamped}, ∅)
      else
        ((walkAux cached coord n (i - 1)).1,
          insert ((coord.zoomTo i).getFloored).getClamped
            (walkAux cached coord n (i - 1)).2) :=
  rfl

/-- Flooring and clamping an integral in-grid coordinate rescaled to its own
zoom gives the coordinate back. -/
theorem clampFloor_self (col row z : ℤ) (hc0 : 0 ≤ col)
    (hc1 : ((col : ℤ) : ℚ) ≤ (2 : ℚ) ^ z - 1) (hr0 : 0 ≤ row)
    (hr1 : ((row : ℤ) : ℚ) ≤ (2 : ℚ) ^ z - 1) :
    ((({ column := (col : ℚ), row := (row : ℚ), zoom := z } :
          TileCoordinate).zoomTo z).getFloored).getClamped =
      { column := (col : ℚ), row := (row : ℚ), zoom := z } := by
  unfold TileCoordinate.zoomTo TileCoordinate.getFloored
    TileCoordinate.getClamped
  dsimp only
  rw [sub_self, zpow_zero, mul_one, mul_one, ratTrunc_intCast,
    ratTrunc_intCast]
  simp only [TileCoordinate.mk.injEq]
  refine ⟨?_, ?_, trivial⟩
  · rw [min_eq_left hc1, max_eq_right (by exact_mod_cast hc0)]
  · rw [min_eq_left hr1, max_eq_right (by exact_mod_cast hr0)]


/-- Flooring and clamping an integral in-grid coordinate rescaled one level
coarser gives exactly the halved-and-floored parent address. -/
theorem clampFloor_half (col row z : ℤ) (hz : 1 ≤ z) (hc0 : 0 ≤ col)
    (hc1 : ((col : ℤ) : ℚ) < (2 : ℚ) ^ z) (hr0 : 0 ≤ row)
    (hr1 : ((row : ℤ) : ℚ) < (2 : ℚ) ^ z) :
    ((({ column := (col : ℚ), row := (row : ℚ), zoom := z } :
          TileCoordinate).zoomTo (z - 1)).getFloored).getClamped =
      { column := ((⌊(col : ℚ) / 2⌋ : ℤ) : ℚ)
        row := ((⌊(row : ℚ) / 2⌋ : ℤ) : ℚ)
        zoom := z - 1 } := by
  have hhalf : (2 : ℚ) ^ (z - 1) = (2 : ℚ) ^ z / 2 := by
    rw [zpow_sub_one₀ (by norm_num : (2 : ℚ) ≠ 0)]
    ring
  have hz10 : (0 : ℤ) ≤ z - 1 := by omega
  have hpow : (2 : ℚ) ^ (z - 1) = (((2 : ℤ) ^ (z - 1).toNat : ℤ) : ℚ) :=
    zpow_toNat_cast _ hz10
  have bound : ∀ t : ℤ, 0 ≤ t → ((t : ℤ) : ℚ) < (2 : ℚ) ^ z →
      0 ≤ ⌊(t : ℚ) / 2⌋ ∧
        ((⌊(t : ℚ) / 2⌋ : ℤ) : ℚ) ≤ (2 : ℚ) ^ (z - 1) - 1 := by
    intro t ht0 htq
    have ht0q : (0 : ℚ) ≤ (t : ℚ) := by exact_mod_cast ht0
    have hfl0 : 0 ≤ ⌊(t : ℚ) / 2⌋ := Int.floor_nonneg.mpr (by positivity)
    refine ⟨hfl0, ?_⟩
    have hlt : (t : ℚ) / 2 < (2 : ℚ) ^ z / 2 := by gcongr
    rw [← hhalf] at hlt
    have hflt : ((⌊(t : ℚ) / 2⌋ : ℤ) : ℚ) < (2 : ℚ) ^ (z - 1) :=
      lt_of_le_of_lt (Int.floor_le _) hlt
    rw [hpow] at hflt
    have hint : ⌊(t : ℚ) / 2⌋ < (2 : ℤ) ^ (z - 1).toNat := by
      exact_mod_cast hflt
    have hint2 : ⌊(t : ℚ) / 2⌋ ≤ (2 : ℤ) ^ (z - 1).toNat - 1 := by omega
    rw [hpow]
    exact_mod_cast hint2
  have hexp : z - 1 - z = (-1 : ℤ) := by omega
  unfold TileCoordinate.zoomTo TileCoordinate.getFloored
    TileCoordinate.getClamped
  dsimp only
  rw [hexp]
  rw [show ((2 : ℚ) ^ (-1 : ℤ)) = (2 : ℚ)⁻¹ from zpow_neg_one 2]
  rw [show ((col : ℚ) * (2 : ℚ)⁻¹) = (col : ℚ) / 2 from
    (div_eq_mul_inv _ _).symm]
  rw [show ((row : ℚ) * (2 : ℚ)⁻¹) = (row : ℚ) / 2 from
    (div_eq_mul_inv _ _).symm]
  have hc0q : (0 : ℚ) ≤ (col : ℚ) := by exact_mod_cast hc0
  have hr0q : (0 : ℚ) ≤ (row : ℚ) := by exact_mod_cast hr0
  rw [ratTrunc_of_nonneg _ (by positivity), ratTrunc_of_nonneg _ (by positivity)]
  simp only [TileCoordinate.mk.injEq]
  obtain ⟨hcfl0, hcfl1⟩ := bound col hc0 hc1
  obtain ⟨hrfl0, hrfl1⟩ := bound row hr0 hr1
  refine ⟨?_, ?_, trivial⟩
  · rw [min_eq_left hcfl1, max_eq_right (by exact_mod_cast hcfl0)]
  · rw [min_eq_left hrfl1, max_eq_right (by exact_mod_cast hrfl0)]

/-- C1: for a visible integral cell at the base zoom that is not cached,
when the cache holds the halved-and-floored ancestor one level coarser (no
zoom lies strictly between), the ancestor walk returns exactly that ancestor
as its draw contribution and exactly the missing cell as its request
contribution (it stops at the ancestor, and the only missing ancestor
encountered before it - the cell itself - is requested); consequently
getVisibleCoordinates puts the ancestor in the returned draw set and the
exact coordinate in the request set. -/
theorem ancestor_fallback (st : TileLayer) (ld : TileLoader)
    (prov : BaseURITileProvider) (col row : ℤ) (coord anc : TileCoordinate)
    (hp : st.provider = some prov)
    (hmz0 : 0 ≤ prov.minZoom)
    (hmzlt : prov.minZoom ≤ st.baseZoom prov - 1)
    (hcoord : coord =
      { column := (col : ℚ), row := (row : ℚ), zoom := st.baseZoom prov })
    (hanc : anc =
      { column := ((⌊(col : ℚ) / 2⌋ : ℤ) : ℚ)
        row := ((⌊(row : ℚ) / 2⌋ : ℤ) : ℚ)
        zoom := st.baseZoom prov - 1 })
    (hcol1 : (st.gridBounds prov).minCol ≤ col)
    (hcol2 : col < (st.gridBounds prov).maxCol)
    (hrow1 : (st.gridBounds prov).minRow ≤ row)
    (hrow2 : row < (st.gridBounds prov).maxRow)
    (hmiss : coord ∉ ld.cached)
    (hhit : anc ∈ ld.cached) :
    ancestorWalk prov ld.cached coord = ({anc}, {coord}) ∧
      anc ∈ (st.getVisibleCoordinates ld).1 ∧
      coord ∈ st.requestedCoordinates ld := by
  have hbz0 : (0 : ℤ) ≤ st.baseZoom prov :=
    le_trans hmz0 (baseZoom_ge_minZoom st prov)
  have hbz1 : (1 : ℤ) ≤ st.baseZoom prov := by omega
  obtain ⟨hb1, hb2, hb3, hb4⟩ := gridBounds_range st prov hbz0
  have hc0 : 0 ≤ col := le_trans hb1 hcol1
  have hr0 : 0 ≤ row := le_trans hb3 hrow1
  have hcUp : col < (2 : ℤ) ^ (st.baseZoom prov).toNat :=
    lt_of_lt_of_le hcol2 hb2
  have hrUp : row < (2 : ℤ) ^ (st.baseZoom prov).toNat :=
    lt_of_lt_of_le hrow2 hb4
  have hpow : (2 : ℚ) ^ st.baseZoom prov =
      (((2 : ℤ) ^ (st.baseZoom prov).toNat : ℤ) : ℚ) :=
    zpow_toNat_cast _ hbz0
  have hcQ : ((col : ℤ) : ℚ) < (2 : ℚ) ^ st.baseZoom prov := by
    rw [hpow]
    exact_mod_cast hcUp
  have hrQ : ((row : ℤ) : ℚ) < (2 : ℚ) ^ st.baseZoom prov := by
    rw [hpow]
    exact_mod_cast hrUp
  have hcQle : ((col : ℤ) : ℚ) ≤ (2 : ℚ) ^ st.baseZoom prov - 1 := by
    rw [hpow]
    exact_mod_cast (show col ≤ (2 : ℤ) ^ (st.baseZoom prov).toNat - 1 by omega)
  have hrQle : ((row : ℤ) : ℚ) ≤ (2 : ℚ) ^ st.baseZoom prov - 1 := by
    rw [hpow]
    exact_mod_cast (show row ≤ (2 : ℤ) ^ (st.baseZoom prov).toNat - 1 by omega)
  have hpc0 : ((coord.zoomTo (st.baseZoom prov)).getFloored).getClamped =
      coord := by
    rw [hcoord]
    exact clampFloor_self col row (st.baseZoom prov) hc0 hcQle hr0 hrQle
  have hpc1 :
      ((coord.zoomTo (st.baseZoom prov - 1)).getFloored).getClamped = anc := by
    rw [hcoord, hanc]
    exact clampFloor_half col row (st.baseZoom prov) hbz1 hc0 hcQ hr0 hrQ
  have hzoom : coord.zoom = st.baseZoom prov := by
    rw [hcoord]
  have hwalk : ancestorWalk prov ld.cached coord = ({anc}, {coord}) := by
    unfold ancestorWalk
    rw [hzoom]
    rw [show (st.baseZoom prov - prov.minZoom + 1).toNat =
        ((st.baseZoom prov - prov.minZoom - 1).toNat + 1) + 1 by omega]
    rw [walkAux_succ, hpc0, if_neg hmiss]
    rw [show st.baseZoom prov - 1 = st.baseZoom prov - 1 from rfl]
    rw [walkAux_succ, hpc1, if_pos hhit]
    simp
  have hcell : cellPair prov ld.cached coord = ({anc}, insert coord {coord}) := by
    unfold cellPair
    rw [if_neg hmiss, hwalk]
  refine ⟨hwalk, ?_, ?_⟩
  · unfold TileLayer.getVisibleCoordinates
    rw [hp]
    show anc ∈ (st.visiblePair prov ld.cached).1
    unfold TileLayer.visiblePair
    rw [mem_tileScan_fst]
    refine ⟨col, mem_intRange.mpr ⟨hcol1, hcol2⟩, row,
      mem_intRange.mpr ⟨hrow1, hrow2⟩, ?_⟩
    rw [← hcoord, hcell]
    exact Finset.mem_singleton_self anc
  · unfold TileLayer.requestedCoordinates
    rw [hp]
    show coord ∈ (st.visiblePair prov ld.cached).2
    unfold TileLayer.visiblePair
    rw [mem_tileScan_snd]
    refine ⟨col, mem_intRange.mpr ⟨hcol1, hcol2⟩, row,
      mem_intRange.mpr ⟨hrow1, hrow2⟩, ?_⟩
    rw [← hcoord, hcell]
    exact Finset.mem_insert_self coord _

theorem providerLayer_baseZoom : providerLayer.baseZoom witProvider = 1 := by
  decide

theorem providerLayer_corners :
    providerLayer.cornerCoordinates witProvider =
      ({ column := 0, row := 0, zoom := 1 },
        { column := 2, row := 0, zoom := 1 },
        { column := 0, row := 2, zoom := 1 },
        { column := 2, row := 2, zoom := 1 }) := by
  unfold TileLayer.cornerCoordinates TileLayer.layerPointToTileCoordinate
    TileCoordinate.zoomTo
  rw [providerLayer_baseZoom]
  norm_num [providerLayer, witProvider]

theorem providerLayer_rawGridBounds :
    providerLayer.rawGridBounds witProvider =
      { minCol := 0, maxCol := 2, minRow := 0, maxRow := 2 } := by
  unfold TileLayer.rawGridBounds
  rw [providerLayer_corners]
  norm_num [providerLayer, GridBounds.mk.injEq, min_def, max_def]

theorem providerLayer_gridBounds :
    providerLayer.gridBounds witProvider =
      { minCol := 0, maxCol := 2, minRow := 0, maxRow := 2 } := by
  unfold TileLayer.gridBounds
  rw [providerLayer_rawGridBounds, providerLayer_baseZoom]
  norm_num [cclamp, ratTrunc, GridBounds.mk.injEq, min_def, max_def]

/-- A loader caching only the zoom-0 world tile. -/
def ancLoader : TileLoader :=
  { cached := {tileA}, inFlight := ∅, queued := ∅ }

/-- Witness for C1: with the 2 x 2 viewport layer at integral center and only
the zoom-0 world tile cached, the missing zoom-1 cell (0, 0) falls back to the
cached world tile and is itself requested. -/
theorem ancestor_fallback_witness :
    providerLayer.provider = some witProvider ∧
      0 ≤ witProvider.minZoom ∧
      witProvider.minZoom ≤ providerLayer.baseZoom witProvider - 1 ∧
      (providerLayer.gridBounds witProvider).minCol ≤ 0 ∧
      (0 : ℤ) < (providerLayer.gridBounds witProvider).maxCol ∧
      (providerLayer.gridBounds witProvider).minRow ≤ 0 ∧
      (0 : ℤ) < (providerLayer.gridBounds witProvider).maxRow ∧
      tileB ∉ ancLoader.cached ∧
      tileA ∈ ancLoader.cached ∧
      (ancestorWalk witProvider ancLoader.cached tileB = ({tileA}, {tileB}) ∧
        tileA ∈ (providerLayer.getVisibleCoordinates ancLoader).1 ∧
        tileB ∈ providerLayer.requestedCoordinates ancLoader) :=
  ⟨rfl, by decide, by rw [providerLayer_baseZoom]; decide,
    by rw [providerLayer_gridBounds], by rw [providerLayer_gridBounds]; decide,
    by rw [providerLayer_gridBounds], by rw [providerLayer_gridBounds]; decide,
    by decide, by decide,
    ancestor_fallback providerLayer ancLoader witProvider 0 0 tileB tileA
      rfl (by decide) (by rw [providerLayer_baseZoom]; decide)
      (by rw [providerLayer_baseZoom]; norm_num [tileB])
      (by rw [providerLayer_baseZoom]; norm_num [tileA])
      (by rw [providerLayer_gridBounds])
      (by rw [providerLayer_gridBounds]; decide)
      (by rw [providerLayer_gridBounds])
      (by rw [providerLayer_gridBounds]; decide)
      (by decide) (by decide)⟩

/-- C7: every coordinate the visible-coordinate scan puts in the draw set or
the request set (equivalently, every coordinate it looks up in the cache) is
integral and lies inside the valid grid of its zoom level: base cells come
from loop bounds clamped to the grid, and every ancestor is floored and
clamped before its cache lookup. -/
theorem scanned_coordinates_in_grid (st : TileLayer) (ld : TileLoader)
    (prov : BaseURITileProvider)
    (hp : st.provider = some prov) (hmz0 : 0 ≤ prov.minZoom) :
    ∀ c : TileCoordinate,
      (c ∈ (st.getVisibleCoordinates ld).1 ∨
        c ∈ st.requestedCoordinates ld) →
      InGrid c := by
  have hbz0 : (0 : ℤ) ≤ st.baseZoom prov :=
    le_trans hmz0 (baseZoom_ge_minZoom st prov)
  have hpow := zpow_toNat_cast (st.baseZoom prov) hbz0
  obtain ⟨hb1, hb2, hb3, hb4⟩ := gridBounds_range st prov hbz0
  have hcellGrid : ∀ col row : ℤ,
      (st.gridBounds prov).minCol ≤ col → col < (st.gridBounds prov).maxCol →
      (st.gridBounds prov).minRow ≤ row → row < (st.gridBounds prov).maxRow →
      InGrid
        { column := (col : ℚ), row := (row : ℚ), zoom := st.baseZoom prov } := by
    intro col row h1 h2 h3 h4
    unfold InGrid
    dsimp only
    refine ⟨Rat.den_intCast _, Rat.den_intCast _, ?_, ?_, ?_, ?_⟩
    · exact_mod_cast le_trans hb3 h3
    · rw [hpow]
      exact_mod_cast lt_of_lt_of_le h4 hb4
    · exact_mod_cast le_trans hb1 h1
    · rw [hpow]
      exact_mod_cast lt_of_lt_of_le h2 hb2
  have hwalkGrid : ∀ (col row : ℤ) (c2 : TileCoordinate),
      (c2 ∈ (ancestorWalk prov ld.cached
          { column := (col : ℚ), row := (row : ℚ),
            zoom := st.baseZoom prov }).1 ∨
        c2 ∈ (ancestorWalk prov ld.cached
          { column := (col : ℚ), row := (row : ℚ),
            zoom := st.baseZoom prov }).2) →
      InGrid c2 := by
    intro col row c2 hmem
    unfold ancestorWalk at hmem
    obtain ⟨j, hj1, hj2, hj3⟩ := mem_walkAux ld.cached _ _ _ c2 hmem
    have hge : prov.minZoom ≤ st.baseZoom prov := baseZoom_ge_minZoom st prov
    have hj1b : st.baseZoom prov -
        ((st.baseZoom prov - prov.minZoom + 1).toNat : ℤ) < j := hj1
    have hj0 : 0 ≤ j := by omega
    rw [hj3]
    exact inGrid_clampFloor _ (show (0 : ℤ) ≤
      (({ column := (col : ℚ), row := (row : ℚ),
          zoom := st.baseZoom prov } : TileCoordinate).zoomTo j).zoom from hj0)
  have hcellAll : ∀ (col row : ℤ) (c2 : TileCoordinate),
      (st.gridBounds prov).minCol ≤ col → col < (st.gridBounds prov).maxCol →
      (st.gridBounds prov).minRow ≤ row → row < (st.gridBounds prov).maxRow →
      (c2 ∈ (cellPair prov ld.cached
          { column := (col : ℚ), row := (row : ℚ),
            zoom := st.baseZoom prov }).1 ∨
        c2 ∈ (cellPair prov ld.cached
          { column := (col : ℚ), row := (row : ℚ),
            zoom := st.baseZoom prov }).2) →
      InGrid c2 := by
    intro col row c2 h1 h2 h3 h4 hmem
    unfold cellPair at hmem
    set cc : TileCoordinate :=
      { column := (col : ℚ), row := (row : ℚ), zoom := st.baseZoom prov }
      with hccdef
    by_cases hm : cc ∈ ld.cached
    · rw [if_pos hm] at hmem
      rcases hmem with hmem | hmem
      · rw [Finset.mem_singleton.mp hmem, hccdef]
        exact hcellGrid col row h1 h2 h3 h4
      · exact absurd hmem (Finset.not_mem_empty c2)
    · rw [if_neg hm] at hmem
      rw [hccdef] at hmem
      rcases hmem with hmem | hmem
      · exact hwalkGrid col row c2 (Or.inl hmem)
      · rcases Finset.mem_insert.mp hmem with hmem | hmem
        · rw [hmem]
          exact hcellGrid col row h1 h2 h3 h4
        · exact hwalkGrid col row c2 (Or.inr hmem)
  intro c hc
  have hc2 : c ∈ (st.visiblePair prov ld.cached).1 ∨
      c ∈ (st.visiblePair prov ld.cached).2 := by
    rcases hc with hc | hc
    · left
      unfold TileLayer.getVisibleCoordinates at hc
      rw [hp] at hc
      exact hc
    · right
      unfold TileLayer.requestedCoordinates at hc
      rw [hp] at hc
      exact hc
  rw [show st.visiblePair prov ld.cached =
      tileScan prov ld.cached (st.baseZoom prov)
        (intRange (st.gridBounds prov).minCol (st.gridBounds prov).maxCol)
        (intRange (st.gridBounds prov).minRow (st.gridBounds prov).maxRow)
    from rfl] at hc2
  rcases hc2 with hcv | hcv
  · obtain ⟨col, hcol, row, hrow, hcell⟩ :=
      (mem_tileScan_fst _ _ _ _ _ _).mp hcv
    rw [mem_intRange] at hcol hrow
    exact hcellAll col row c hcol.1 hcol.2 hrow.1 hrow.2 (Or.inl hcell)
  · obtain ⟨col, hcol, row, hrow, hcell⟩ :=
      (mem_tileScan_snd _ _ _ _ _ _).mp hcv
    rw [mem_intRange] at hcol hrow
    exact hcellAll col row c hcol.1 hcol.2 hrow.1 hrow.2 (Or.inr hcell)

/-- Witness for C7 at the concrete 2 x 2 viewport layer and a loader caching
the world tile. -/
theorem scanned_coordinates_in_grid_witness :
    providerLayer.provider = some witProvider ∧
      0 ≤ witProvider.minZoom ∧
      (∀ c : TileCoordinate,
        (c ∈ (providerLayer.getVisibleCoordinates ancLoader).1 ∨
          c ∈ providerLayer.requestedCoordinates ancLoader) →
        InGrid c) :=
  ⟨rfl, by decide,
    scanned_coordinates_in_grid providerLayer ancLoader witProvider rfl
      (by decide)⟩

/-- Spec-side formula for the grid zoom, following the claim's words:
round the center zoom (a real in the C++, integral in this embedding) and
clamp to the provider's zoom range. -/
def specBaseZoom (st : TileLayer) (prov : BaseURITileProvider) : ℤ :=
  czclamp (round ((st.center.zoom : ℤ) : ℚ)) prov.minZoom prov.maxZoom

/-- Spec-side formula for the iteration bounds, following the claim's words:
the raw floor/ceil corner bounds padded outward, clamped as integers to
`[0, 2 ^ baseZoom]`. -/
def specGridBounds (st : TileLayer) (prov : BaseURITileProvider) :
    GridBounds :=
  { minCol :=
      czclamp (st.rawGridBounds prov).minCol 0
        ((2 : ℤ) ^ (st.baseZoom prov).toNat)
    maxCol :=
      czclamp (st.rawGridBounds prov).maxCol 0
        ((2 : ℤ) ^ (st.baseZoom prov).toNat)
    minRow :=
      czclamp (st.rawGridBounds prov).minRow 0
        ((2 : ℤ) ^ (st.baseZoom prov).toNat)
    maxRow :=
      czclamp (st.rawGridBounds prov).maxRow 0
        ((2 : ℤ) ^ (st.baseZoom prov).toNat) }

/-- C3: the grid zoom used for iteration is the rounded center zoom clamped
to the provider's zoom range, and the iterated bounds are the floor/ceil of
the corner columns and rows padded outward and clamped to
`[0, 2 ^ baseZoom]`: the C++ double CLAMP followed by int truncation agrees
with the spec's integer clamp. -/
theorem grid_iteration_bounds (st : TileLayer) (prov : BaseURITileProvider)
    (h0 : 0 ≤ prov.minZoom) :
    st.baseZoom prov = specBaseZoom st prov ∧
      st.gridBounds prov = specGridBounds st prov := by
  constructor
  · unfold TileLayer.baseZoom specBaseZoom
    rw [round_intCast]
  · have hbz0 : (0 : ℤ) ≤ st.baseZoom prov :=
      le_trans h0 (baseZoom_ge_minZoom st prov)
    rw [gridBounds_eq_czclamp st prov hbz0]
    rfl

/-- Witness for C3 at the concrete 2 x 2 viewport layer. -/
theorem grid_iteration_bounds_witness :
    0 ≤ witProvider.minZoom ∧
      (providerLayer.baseZoom witProvider =
          specBaseZoom providerLayer witProvider ∧
        providerLayer.gridBounds witProvider =
          specGridBounds providerLayer witProvider) :=
  ⟨by decide, grid_iteration_bounds providerLayer witProvider (by decide)⟩

theorem ratCast_num_of_den_one (q : ℚ) (h : q.den = 1) :
    ((q.num : ℤ) : ℚ) = q := by
  conv_rhs => rw [← Rat.num_div_den q]
  rw [h]
  simp

theorem intRange_self (a : ℤ) : intRange a a = [] := by
  unfold intRange
  simp

/-- The canonical spec provider: 256-pixel tiles, zoom range 0 to 18. -/
def zeroProvider : BaseURITileProvider :=
  { minZoom := 0
    maxZoom := 18
    tileWidth := 256
    tileHeight := 256
    geoToTile := fun _ => tileA }

/-- A degenerate layer: zero-size viewport, default center (0.5, 0.5, 0). -/
def zeroLayer : TileLayer :=
  { width := 0
    height := 0
    center := { column := 1 / 2, row := 1 / 2, zoom := 0 }
    padColumn := 0
    padRow := 0
    coordsDirty := true
    visibleCoords := ∅
    provider := some zeroProvider }

theorem zeroLayer_baseZoom : zeroLayer.baseZoom zeroProvider = 0 := by
  decide

theorem zeroLayer_corners :
    zeroLayer.cornerCoordinates zeroProvider =
      ({ column := 1 / 2, row := 1 / 2, zoom := 0 },
        { column := 1 / 2, row := 1 / 2, zoom := 0 },
        { column := 1 / 2, row := 1 / 2, zoom := 0 },
        { column := 1 / 2, row := 1 / 2, zoom := 0 }) := by
  unfold TileLayer.cornerCoordinates TileLayer.layerPointToTileCoordinate
    TileCoordinate.zoomTo
  rw [zeroLayer_baseZoom]
  norm_num [zeroLayer, zeroProvider]

theorem zeroLayer_rawGridBounds :
    zeroLayer.rawGridBounds zeroProvider =
      { minCol := 0, maxCol := 1, minRow := 0, maxRow := 1 } := by
  have hceil : (⌈(1 : ℚ) / 2⌉ : ℤ) = 1 :=
    Int.ceil_eq_iff.mpr ⟨by norm_num, by norm_num⟩
  unfold TileLayer.rawGridBounds
  rw [zeroLayer_corners]
  norm_num [zeroLayer, GridBounds.mk.injEq, hceil]

theorem zeroLayer_gridBounds :
    zeroLayer.gridBounds zeroProvider =
      { minCol := 0, maxCol := 1, minRow := 0, maxRow := 1 } := by
  unfold TileLayer.gridBounds
  rw [zeroLayer_rawGridBounds, zeroLayer_baseZoom]
  norm_num [cclamp, ratTrunc, GridBounds.mk.injEq, min_def, max_def]

/-- Counterexample to C4 as stated: with the provider set, a zero-size
viewport and the default fractional center (0.5, 0.5, 0), the floor/ceil
bounds still span the single cell containing the center, so the resolution
requests the world tile - it does not issue zero requests. -/
theorem zero_viewport_counterexample :
    zeroLayer.width = 0 ∧ zeroLayer.height = 0 ∧
      tileA ∈ zeroLayer.requestedCoordinates emptyLoader ∧
      zeroLayer.requestedCoordinates emptyLoader ≠ ∅ := by
  have hmem : tileA ∈ zeroLayer.requestedCoordinates emptyLoader := by
    unfold TileLayer.requestedCoordinates
    show tileA ∈ (zeroLayer.visiblePair zeroProvider emptyLoader.cached).2
    rw [show zeroLayer.visiblePair zeroProvider emptyLoader.cached =
        tileScan zeroProvider emptyLoader.cached
          (zeroLayer.baseZoom zeroProvider)
          (intRange (zeroLayer.gridBounds zeroProvider).minCol
            (zeroLayer.gridBounds zeroProvider).maxCol)
          (intRange (zeroLayer.gridBounds zeroProvider).minRow
            (zeroLayer.gridBounds zeroProvider).maxRow)
      from rfl]
    rw [zeroLayer_gridBounds, zeroLayer_baseZoom]
    rw [mem_tileScan_snd]
    refine ⟨0, mem_intRange.mpr ⟨le_refl 0, by decide⟩, 0,
      mem_intRange.mpr ⟨le_refl 0, by decide⟩, ?_⟩
    have hlit : (⟨((0 : ℤ) : ℚ), ((0 : ℤ) : ℚ), (0 : ℤ)⟩ : TileCoordinate) =
        tileA := by
      norm_num [tileA]
    rw [hlit]
    unfold cellPair
    rw [if_neg (show tileA ∉ emptyLoader.cached by decide)]
    exact Finset.mem_insert_self tileA _
  exact ⟨rfl, rfl, hmem, Finset.ne_empty_of_mem hmem⟩

theorem floor_eq_num_of_den_one (q : ℚ) (h : q.den = 1) : ⌊q⌋ = q.num := by
  conv_lhs => rw [← ratCast_num_of_den_one q h]
  exact Int.floor_intCast q.num

theorem ceil_eq_num_of_den_one (q : ℚ) (h : q.den = 1) : ⌈q⌉ = q.num := by
  conv_lhs => rw [← ratCast_num_of_den_one q h]
  exact Int.ceil_intCast q.num

/-- C4 (amended): with a provider set, a zero-size viewport, zero padding and
a center whose rescaling to the base zoom has integral row and column, the
resolution returns an empty draw set, requests no coordinate, and only
cancels the loader's queued fetches. -/
theorem zero_viewport_empty (st : TileLayer) (ld : TileLoader)
    (prov : BaseURITileProvider)
    (hp : st.provider = some prov)
    (hw : st.width = 0) (hh : st.height = 0)
    (hpc : st.padColumn = 0) (hpr : st.padRow = 0)
    (hcol : (st.center.zoomTo (st.baseZoom prov)).column.den = 1)
    (hrow : (st.center.zoomTo (st.baseZoom prov)).row.den = 1) :
    (st.getVisibleCoordinates ld).1 = ∅ ∧
      st.requestedCoordinates ld = ∅ ∧
      (st.getVisibleCoordinates ld).2 = ld.cancelQueued := by
  have hcorner : st.cornerCoordinates prov =
      (st.center.zoomTo (st.baseZoom prov),
        st.center.zoomTo (st.baseZoom prov),
        st.center.zoomTo (st.baseZoom prov),
        st.center.zoomTo (st.baseZoom prov)) := by
    unfold TileLayer.cornerCoordinates TileLayer.layerPointToTileCoordinate
    rw [hp, hw, hh]
    norm_num
  have hraw : st.rawGridBounds prov =
      { minCol := (st.center.zoomTo (st.baseZoom prov)).column.num
        maxCol := (st.center.zoomTo (st.baseZoom prov)).column.num
        minRow := (st.center.zoomTo (st.baseZoom prov)).row.num
        maxRow := (st.center.zoomTo (st.baseZoom prov)).row.num } := by
    unfold TileLayer.rawGridBounds
    rw [hcorner, hpc, hpr]
    dsimp only
    simp only [min_self, max_self, sub_zero, add_zero]
    rw [floor_eq_num_of_den_one _ hcol, ceil_eq_num_of_den_one _ hcol,
      floor_eq_num_of_den_one _ hrow, ceil_eq_num_of_den_one _ hrow]
  have hminmax : (st.gridBounds prov).minCol = (st.gridBounds prov).maxCol ∧
      (st.gridBounds prov).minRow = (st.gridBounds prov).maxRow := by
    unfold TileLayer.gridBounds
    rw [hraw]
    exact ⟨rfl, rfl⟩
  have hcols : intRange (st.gridBounds prov).minCol
      (st.gridBounds prov).maxCol = [] := by
    rw [hminmax.1]
    exact intRange_self _
  have hpair : st.visiblePair prov ld.cached = (∅, ∅) := by
    rw [show st.visiblePair prov ld.cached =
        tileScan prov ld.cached (st.baseZoom prov)
          (intRange (st.gridBounds prov).minCol (st.gridBounds prov).maxCol)
          (intRange (st.gridBounds prov).minRow (st.gridBounds prov).maxRow)
      from rfl]
    rw [hcols]
    rfl
  refine ⟨?_, ?_, ?_⟩
  · unfold TileLayer.getVisibleCoordinates
    rw [hp]
    show (st.visiblePair prov ld.cached).1 = ∅
    rw [hpair]
  · unfold TileLayer.requestedCoordinates
    rw [hp]
    show (st.visiblePair prov ld.cached).2 = ∅
    rw [hpair]
  · unfold TileLayer.getVisibleCoordinates
    rw [hp]
    show issueAll (sortRequests st.center (st.visiblePair prov ld.cached).2)
        ld.cancelQueued = ld.cancelQueued
    rw [hpair]
    show issueAll (sortRequests st.center ∅) ld.cancelQueued = ld.cancelQueued
    unfold sortRequests
    rw [Finset.sort_empty]
    rfl

/-- A degenerate zero-size layer with an integral center. -/
def zeroIntLayer : TileLayer :=
  { width := 0
    height := 0
    center := { column := 1, row := 1, zoom := 0 }
    padColumn := 0
    padRow := 0
    coordsDirty := true
    visibleCoords := ∅
    provider := some witProvider }

theorem zeroIntLayer_baseZoom : zeroIntLayer.baseZoom witProvider = 0 := by
  decide

/-- Witness for C4 (amended) at a concrete zero-size layer with integral
center. -/
theorem zero_viewport_empty_witness :
    zeroIntLayer.provider = some witProvider ∧
      zeroIntLayer.width = 0 ∧ zeroIntLayer.height = 0 ∧
      zeroIntLayer.padColumn = 0 ∧ zeroIntLayer.padRow = 0 ∧
      (zeroIntLayer.center.zoomTo
        (zeroIntLayer.baseZoom witProvider)).column.den = 1 ∧
      (zeroIntLayer.center.zoomTo
        (zeroIntLayer.baseZoom witProvider)).row.den = 1 ∧
      ((zeroIntLayer.getVisibleCoordinates emptyLoader).1 = ∅ ∧
        zeroIntLayer.requestedCoordinates emptyLoader = ∅ ∧
        (zeroIntLayer.getVisibleCoordinates emptyLoader).2 =
          emptyLoader.cancelQueued) :=
  ⟨rfl, rfl, rfl, rfl, rfl,
    by rw [zeroIntLayer_baseZoom]; norm_num [zeroIntLayer, TileCoordinate.zoomTo],
    by rw [zeroIntLayer_baseZoom]; norm_num [zeroIntLayer, TileCoordinate.zoomTo],
    zero_viewport_empty zeroIntLayer emptyLoader witProvider rfl rfl rfl rfl rfl
      (by rw [zeroIntLayer_baseZoom]
          norm_num [zeroIntLayer, TileCoordinate.zoomTo])
      (by rw [zeroIntLayer_baseZoom]
          norm_num [zeroIntLayer, TileCoordinate.zoomTo])⟩
